import Mathlib

/-!
# Verification of the TapeView / TapeViewStack state machine

Shallow embedding of `tapeagents/view.py`: the call-stack state machine that
reconstructs per-agent views from a flat tape of steps.  Python dictionaries
are modelled as insertion-ordered association lists, the mutable stack as a
Lean list whose *head* is Python's `stack[-1]` (the top), and raising an
exception as returning `Except.error`.
-/

namespace TapeAgents

/-- Modelled from the spec: the step taxonomy of `tapeagents/core.py` (absent
from the sources; spec §3).  `Call`, `Respond`, `Broadcast` are declared in
`view.py` itself as subclasses of `Thought`; `Thought`, `Jump` and the generic
`AgentStep` (all carrying a `by` path and a `prompt_id`) and `Observation`
(not attributed to an agent via `by`) come from `core.py`.  The `unknown`
constructor stands for a step object of a class `update`'s dispatch does not
recognize.  `payload` fields distinguish otherwise identical generic steps. -/
inductive Step where
  | call (byPath promptId agentName content : String)
  | respond (byPath promptId content : String)
  | broadcast (byPath promptId fromPath content : String) (receivers : List String)
  | jump (byPath promptId : String) (next_node : Nat)
  | agentStep (byPath promptId kind payload : String)
  | observation (kind payload : String)
  | unknown (payload : String)
  deriving DecidableEq, Repr

namespace Step

/-- The `kind` discriminator field of each step class (`Respond.kind` is the
literal `"return"` in `view.py`). -/
def kind : Step → String
  | .call .. => "call"
  | .respond .. => "return"
  | .broadcast .. => "broadcast"
  | .jump .. => "jump"
  | .agentStep _ _ k _ => k
  | .observation k _ => k
  | .unknown _ => ""

/-- The `by` field: full path of the emitting agent.  `Observation` and
unrecognized steps carry no agent attribution (spec §3); the code never reads
`by` on them, so any value serves — we use `""`. -/
def byPath : Step → String
  | .call b .. => b
  | .respond b .. => b
  | .broadcast b .. => b
  | .jump b _ _ => b
  | .agentStep b _ _ _ => b
  | .observation _ _ => ""
  | .unknown _ => ""

/-- The `prompt_id` field of `AgentStep` and its subclasses. -/
def promptId : Step → String
  | .call _ p .. => p
  | .respond _ p _ => p
  | .broadcast _ p _ _ _ => p
  | .jump _ p _ => p
  | .agentStep _ p _ _ => p
  | .observation _ _ => ""
  | .unknown _ => ""

/-- Python's `isinstance(step, AgentStep)`: every recognized step except `Observation`
is an `AgentStep` (`Call`/`Respond`/`Broadcast`/`Jump` are `Thought`s, which
subclass `AgentStep`). -/
def isAgentStep : Step → Bool
  | .observation _ _ => false
  | .unknown _ => false
  | _ => true

/-- Python's `isinstance(step, Call)`. -/
def isCall : Step → Bool
  | .call .. => true
  | _ => false

/-- Python's `isinstance(step, Respond)`. -/
def isRespond : Step → Bool
  | .respond .. => true
  | _ => false

/-- Python's `isinstance(step, Jump)`. -/
def isJump : Step → Bool
  | .jump .. => true
  | _ => false

/-- A step object whose class the dispatch in `update` does not recognize. -/
def isUnknown : Step → Bool
  | .unknown _ => true
  | _ => false

end Step

/-! ## Python dictionary and string primitives -/

/-- Python's `d[k].append(v)` on a `defaultdict(list)`: if `k` is present, append `v`
to its list in place; otherwise insert `(k, [v])` at the end (Python dicts
preserve insertion order). -/
def dictAppend (d : List (String × List Step)) (k : String) (v : Step) :
    List (String × List Step) :=
  match d with
  | [] => [(k, [v])]
  | (k', vs) :: rest =>
    if k' = k then (k', vs ++ [v]) :: rest else (k', vs) :: dictAppend rest k v

/-- Python's `d[k] = v` on a dict: replace in place if present, else insert at
the end. -/
def dictSet (d : List (String × Step)) (k : String) (v : Step) :
    List (String × Step) :=
  match d with
  | [] => [(k, v)]
  | (k', v') :: rest =>
    if k' = k then (k', v) :: rest else (k', v') :: dictSet rest k v

/-- Python's `d[k]` lookup (first — and only — binding of `k`). -/
def dictGet? (d : List (String × Step)) (k : String) : Option Step :=
  match d with
  | [] => none
  | (k', v) :: rest => if k' = k then some v else dictGet? rest k

/-- Python's `d[k]` lookup in a step-list-valued dict; a missing key reads as `[]`
(only used to state theorems about `messages_by_agent`). -/
def dictGetList (d : List (String × List Step)) (k : String) : List Step :=
  match d with
  | [] => []
  | (k', vs) :: rest => if k' = k then vs else dictGetList rest k

/-- Python's `s.split("/")`, by structural recursion on the character list
(`"".split("/") == [""]`, `"root/B".split("/") == ["root", "B"]`). -/
def splitSlashAux : List Char → List Char → List String
  | [], acc => [String.mk acc.reverse]
  | c :: cs, acc =>
    if c = '/' then String.mk acc.reverse :: splitSlashAux cs []
    else splitSlashAux cs (c :: acc)

/-- Python's `s.split("/")`. -/
def splitSlash (s : String) : List String :=
  splitSlashAux s.data []

/-- Python's `s.rsplit("/", 1)[0]`: everything before the last `/`, or `s`
itself when `s` contains no `/`. -/
def rsplitHead (s : String) : String :=
  match splitSlash s with
  | [] => s
  | [_] => s
  | parts => String.intercalate "/" parts.dropLast

/-! ## TapeView -/

/-- Class `TapeView`: ephemeral view of an agent's part of the tape
(`view.py:35-61`).  `steps_by_kind` and `outputs_by_subagent` are Python
dicts, modelled as insertion-ordered association lists. -/
structure TapeView where
  agent_name : String
  agent_full_name : String
  steps : List Step := []
  steps_by_kind : List (String × List Step) := []
  next_node : Nat := 0
  last_prompt_id : String := ""
  outputs_by_subagent : List (String × Step) := []
  deriving DecidableEq, Repr

namespace TapeView

/-- Method `TapeView.add_step`: append to `steps` and to `steps_by_kind[step.kind]`,
creating the bucket on first use (`view.py:51-56`). -/
def add_step (v : TapeView) (step : Step) : TapeView :=
  { v with
    steps := v.steps ++ [step]
    steps_by_kind := dictAppend v.steps_by_kind step.kind step }

/-- Python list indexing `l[i]` for `int` indices, including the negative
indices Python accepts; out of range raises `IndexError`, modelled as `none`. -/
def pyIndex (l : List Step) (i : Int) : Option Step :=
  if 0 ≤ i then l.get? i.toNat
  else if (-i).toNat ≤ l.length then l.get? (l.length - (-i).toNat)
  else none

/-- Method `TapeView.get_output` (`view.py:58-61`): an `int` ref indexes
`list(outputs_by_subagent.values())`, a `str` ref looks the name up in the
dict; `IndexError`/`KeyError` are modelled as `none`. -/
def get_output (v : TapeView) (ref : Int ⊕ String) : Option Step :=
  match ref with
  | .inl i => pyIndex (v.outputs_by_subagent.map Prod.snd) i
  | .inr name => dictGet? v.outputs_by_subagent name

end TapeView

/-! ## TapeViewStack -/

/-- Class `TapeViewStack` (`view.py:67-79`).  Python keeps the root frame at index 0
and the top at `stack[-1]`; we store the list reversed, top at the HEAD, so
`stack[-1]` is `stack.head`, push is `cons` and `stack.pop()` drops the head.
`messages_by_agent` is a `defaultdict(list)`. -/
structure TapeViewStack where
  stack : List TapeView
  messages_by_agent : List (String × List Step) := []
  deriving DecidableEq, Repr

/-- Property `TapeViewStack.top` = `self.stack[-1]` (head in our orientation; the
default is irrelevant because the stack is never empty). -/
def TapeViewStack.top (vs : TapeViewStack) : TapeView :=
  vs.stack.headD { agent_name := "", agent_full_name := "" }

/-- Method `TapeViewStack.is_step_by_active_agent` (`view.py:85-92`): the step is an
`AgentStep` and its `by` path equals the top frame's `agent_full_name` after
stripping the first (root) component from both.  The method only reads
`self.top.agent_full_name`, which we take as the argument. -/
def is_step_by_active_agent (activeFullName : String) (step : Step) : Bool :=
  step.isAgentStep &&
    ((splitSlash step.byPath).tail == (splitSlash activeFullName).tail)

/-- Eligibility test inside the reverse scan of `pop_view_from_stack`
(`view.py:133`): not a `Call`/`Respond`, and not attributed to the caller
agent that is active after the pop. -/
def eligibleOutput (callerFullName : String) (step : Step) : Bool :=
  !step.isCall && !step.isRespond && !is_step_by_active_agent callerFullName step

namespace TapeViewStack

/-- Method `pop_view_from_stack` (`view.py:121-142`).  Popping with fewer than two
frames raises `IndexError` (`self.stack[-1]` on the emptied list). -/
def pop_view_from_stack (vs : TapeViewStack) (step : Step) :
    Except String TapeViewStack :=
  match vs.stack with
  | top :: new_top :: rest =>
    let new_top := { new_top with next_node := new_top.next_node + 1 }
    let new_top :=
      match top.steps.reverse.find? (eligibleOutput new_top.agent_full_name) with
      | some out =>
        let nt := new_top.add_step out
        { nt with
          outputs_by_subagent := dictSet nt.outputs_by_subagent top.agent_name out }
      | none => new_top
    let receiver := rsplitHead step.byPath
    let msgs := dictAppend (dictAppend vs.messages_by_agent step.byPath step)
      receiver step
    .ok { stack := new_top.add_step step :: rest, messages_by_agent := msgs }
  | _ => .error "IndexError: pop from the root frame"

/-- Method `broadcast` (`view.py:144-149`): record on the top frame and route to
the path `step.by + "/" + to` for each receiver, in order. -/
def broadcast (vs : TapeViewStack) (step : Step) : TapeViewStack :=
  match vs.stack, step with
  | top :: rest, .broadcast byP _ _ _ receivers =>
    { stack := top.add_step step :: rest
      messages_by_agent :=
        receivers.foldl (fun m t => dictAppend m (byP ++ "/" ++ t) step)
          vs.messages_by_agent }
  | _, _ => vs

/-- Method `put_new_view_on_stack` (`view.py:151-162`): record the `Call` on the
caller's frame, push a fresh frame for the callee, and route the step under
the caller's path and the callee's path. -/
def put_new_view_on_stack (vs : TapeViewStack) (step : Step) : TapeViewStack :=
  match vs.stack, step with
  | top :: rest, .call byP _ name _ =>
    { stack :=
        { agent_name := name
          agent_full_name := top.agent_full_name ++ "/" ++ name } ::
          top.add_step step :: rest
      messages_by_agent :=
        dictAppend (dictAppend vs.messages_by_agent byP step)
          (byP ++ "/" ++ name) step }
  | _, _ => vs

/-- The prompt-id bookkeeping on the (possibly new) top frame, run after the
dispatch (`view.py:113-119`): when the step is by the active agent, a fresh
`prompt_id` increments `next_node` (except for `Jump`) and `last_prompt_id`
is updated unconditionally. -/
def promptTop (step : Step) (top : TapeView) : TapeView :=
  if is_step_by_active_agent top.agent_full_name step then
    let top1 :=
      if step.isJump then top
      else if step.promptId ≠ top.last_prompt_id then
        { top with next_node := top.next_node + 1 }
      else top
    { top1 with last_prompt_id := step.promptId }
  else top

/-- Applies `promptTop` to the top of the stack (the `top = self.stack[-1]`
re-read at `view.py:113`). -/
def promptLogic (step : Step) (vs : TapeViewStack) : TapeViewStack :=
  match vs.stack with
  | [] => vs
  | top :: rest => { vs with stack := promptTop step top :: rest }

/-- Method `update` (`view.py:94-119`): dispatch on the step's class (in the source's
order — the special `Thought` subclasses are matched before the generic
`AgentStep` case), then run the prompt-id bookkeeping.  An empty stack makes
`self.stack[-1]` raise, and an unrecognized class raises `ValueError`. -/
def update (vs : TapeViewStack) (step : Step) : Except String TapeViewStack :=
  match vs.stack with
  | [] => .error "IndexError: stack is empty"
  | top :: rest =>
    let afterDispatch : Except String TapeViewStack :=
      match step with
      | .call .. => .ok (vs.put_new_view_on_stack step)
      | .broadcast .. => .ok (vs.broadcast step)
      | .respond .. => vs.pop_view_from_stack step
      | .jump _ _ n => .ok { vs with stack := { top with next_node := n } :: rest }
      | .agentStep .. => .ok { vs with stack := top.add_step step :: rest }
      | .observation .. => .ok { vs with stack := top.add_step step :: rest }
      | .unknown _ => .error "ValueError: unsupported step type"
    afterDispatch.map (promptLogic step)

/-- The stack `compute` seeds: a single synthetic root frame
(`view.py:169`). -/
def initStack : TapeViewStack :=
  { stack := [{ agent_name := "root", agent_full_name := "root" }] }

/-- The fold of `update` over a step sequence (`view.py:170-171`); the first
raised exception aborts the fold. -/
def applyAll (vs : TapeViewStack) : List Step → Except String TapeViewStack
  | [] => .ok vs
  | step :: rest =>
    match vs.update step with
    | .ok vs' => applyAll vs' rest
    | .error e => .error e

end TapeViewStack

/-- Modelled from the spec: `Tape` (`tapeagents/core.py`, absent from the
sources; spec §6) — an ordered sequence of steps with a stable identity, a
`context` and metadata; the core only reads `.steps` in order. -/
structure Tape where
  context : String := ""
  metadata : String := ""
  steps : List Step
  deriving DecidableEq, Repr

/-- Method `TapeViewStack.compute` (`view.py:164-173`) on the no-cache-hit path
(`_view_stack_cache` is keyed by object identity; with an empty or missed
cache the function is the fold of `update` over `tape.steps` from the
root-seeded stack). -/
def TapeViewStack.compute (tape : Tape) : Except String TapeViewStack :=
  TapeViewStack.applyAll TapeViewStack.initStack tape.steps

end TapeAgents

/-! ## Basic lemmas about the state machine -/

namespace TapeAgents.TapeViewStack

/-- Helper `promptTop` only ever touches the `next_node` and `last_prompt_id`
fields of the top frame. -/
theorem promptTop_eta (step : Step) (t : TapeView) :
    ∃ nn lp, promptTop step t = { t with next_node := nn, last_prompt_id := lp } := by
  unfold promptTop
  split
  · split
    · exact ⟨t.next_node, step.promptId, rfl⟩
    · split
      · exact ⟨t.next_node + 1, step.promptId, rfl⟩
      · exact ⟨t.next_node, step.promptId, rfl⟩
  · exact ⟨t.next_node, t.last_prompt_id, rfl⟩

theorem promptTop_steps (step : Step) (t : TapeView) :
    (promptTop step t).steps = t.steps := by
  obtain ⟨nn, lp, h⟩ := promptTop_eta step t; rw [h]

theorem promptTop_steps_by_kind (step : Step) (t : TapeView) :
    (promptTop step t).steps_by_kind = t.steps_by_kind := by
  obtain ⟨nn, lp, h⟩ := promptTop_eta step t; rw [h]

theorem promptTop_outputs (step : Step) (t : TapeView) :
    (promptTop step t).outputs_by_subagent = t.outputs_by_subagent := by
  obtain ⟨nn, lp, h⟩ := promptTop_eta step t; rw [h]

theorem promptTop_names (step : Step) (t : TapeView) :
    (promptTop step t).agent_name = t.agent_name
      ∧ (promptTop step t).agent_full_name = t.agent_full_name := by
  obtain ⟨nn, lp, h⟩ := promptTop_eta step t; rw [h]; exact ⟨rfl, rfl⟩

theorem promptLogic_cons (step : Step) (vs : TapeViewStack) (top : TapeView)
    (rest : List TapeView) (h : vs.stack = top :: rest) :
    promptLogic step vs = { vs with stack := promptTop step top :: rest } := by
  unfold promptLogic; rw [h]

theorem promptLogic_messages (step : Step) (vs : TapeViewStack) :
    (promptLogic step vs).messages_by_agent = vs.messages_by_agent := by
  obtain ⟨stk, m⟩ := vs
  cases stk <;> rfl

theorem promptLogic_length (step : Step) (vs : TapeViewStack) :
    (promptLogic step vs).stack.length = vs.stack.length := by
  obtain ⟨stk, m⟩ := vs
  cases stk <;> simp [promptLogic]

theorem promptLogic_map_steps (step : Step) (vs : TapeViewStack) :
    (promptLogic step vs).stack.map TapeView.steps = vs.stack.map TapeView.steps := by
  obtain ⟨stk, m⟩ := vs
  cases stk <;> simp [promptLogic, promptTop_steps]

theorem promptLogic_map_steps_by_kind (step : Step) (vs : TapeViewStack) :
    (promptLogic step vs).stack.map TapeView.steps_by_kind
      = vs.stack.map TapeView.steps_by_kind := by
  obtain ⟨stk, m⟩ := vs
  cases stk <;> simp [promptLogic, promptTop_steps_by_kind]

/-- Number of `Call` steps in a sequence (spec §8.1). -/
def countCalls (steps : List Step) : Nat :=
  steps.countP (fun s => s.isCall)

/-- Number of `Respond` steps in a sequence (spec §8.1). -/
def countResponds (steps : List Step) : Nat :=
  steps.countP (fun s => s.isRespond)

/-- One successful `update` changes the stack depth by `+1` for a `Call`,
`-1` for a `Respond` and `0` otherwise, and never leaves the stack empty. -/
theorem update_length {vs vs' : TapeViewStack} {step : Step}
    (h : update vs step = .ok vs') :
    vs'.stack.length + (if step.isRespond then 1 else 0)
        = vs.stack.length + (if step.isCall then 1 else 0)
      ∧ 1 ≤ vs'.stack.length := by
  obtain ⟨stk, m⟩ := vs
  cases stk with
  | nil => simp [update] at h
  | cons top rest =>
    cases step with
    | call b p n c =>
      simp only [update, Except.map, Except.ok.injEq] at h
      subst h
      refine ⟨?_, ?_⟩ <;>
        simp [promptLogic_length, put_new_view_on_stack, Step.isRespond, Step.isCall]
    | broadcast b p f c to_ =>
      simp only [update, Except.map, Except.ok.injEq] at h
      subst h
      refine ⟨?_, ?_⟩ <;>
        simp [promptLogic_length, broadcast, Step.isRespond, Step.isCall]
    | respond b p c =>
      cases rest with
      | nil => simp [update, pop_view_from_stack, Except.map] at h
      | cons nt rest' =>
        simp only [update, pop_view_from_stack, Except.map, Except.ok.injEq] at h
        subst h
        refine ⟨?_, ?_⟩ <;>
          simp [promptLogic_length, Step.isRespond, Step.isCall]
    | jump b p n =>
      simp only [update, Except.map, Except.ok.injEq] at h
      subst h
      refine ⟨?_, ?_⟩ <;> simp [promptLogic_length, Step.isRespond, Step.isCall]
    | agentStep b p k pl =>
      simp only [update, Except.map, Except.ok.injEq] at h
      subst h
      refine ⟨?_, ?_⟩ <;> simp [promptLogic_length, Step.isRespond, Step.isCall]
    | observation k pl =>
      simp only [update, Except.map, Except.ok.injEq] at h
      subst h
      refine ⟨?_, ?_⟩ <;> simp [promptLogic_length, Step.isRespond, Step.isCall]
    | unknown pl => simp [update, Except.map] at h

/-- Depth accounting over a whole (successful) fold. -/
theorem applyAll_length :
    ∀ (steps : List Step) (vs vs' : TapeViewStack),
      applyAll vs steps = .ok vs' →
      vs'.stack.length + countResponds steps = vs.stack.length + countCalls steps
  | [], vs, vs', h => by
      simp only [applyAll, Except.ok.injEq] at h
      subst h
      simp [countCalls, countResponds]
  | s :: rest, vs, vs', h => by
      simp only [applyAll] at h
      cases hu : update vs s with
      | error e => rw [hu] at h; exact absurd h (by simp)
      | ok w =>
        rw [hu] at h
        have ih := applyAll_length rest w vs' h
        have hl := (update_length hu).1
        simp only [countCalls, countResponds, List.countP_cons] at *
        omega

/-- A successful fold over a nonempty-stack start keeps the stack nonempty. -/
theorem applyAll_length_pos :
    ∀ (steps : List Step) (vs vs' : TapeViewStack),
      applyAll vs steps = .ok vs' → 1 ≤ vs.stack.length → 1 ≤ vs'.stack.length
  | [], vs, vs', h, hpos => by
      simp only [applyAll, Except.ok.injEq] at h
      subst h; exact hpos
  | s :: rest, vs, vs', h, hpos => by
      simp only [applyAll] at h
      cases hu : update vs s with
      | error e => rw [hu] at h; exact absurd h (by simp)
      | ok w =>
        rw [hu] at h
        exact applyAll_length_pos rest w vs' h (update_length hu).2

end TapeAgents.TapeViewStack

/-! ## Claim theorems -/

namespace TapeAgents

open TapeViewStack

/-- C1 — Balance invariant: for every step sequence applied prefix-by-prefix
via `update` to a stack seeded with the root frame, the stack depth after a
successfully processed prefix equals `1 + (Calls − Responds)` in that prefix
and never drops below 1; moreover each `Call` pushes exactly one frame and
each `Respond` pops exactly one frame. -/
theorem balance_invariant :
    (∀ (steps : List Step) (vs' : TapeViewStack),
        applyAll initStack steps = .ok vs' →
        vs'.stack.length + countResponds steps = 1 + countCalls steps
          ∧ 1 ≤ vs'.stack.length)
    ∧ (∀ (vs vs' : TapeViewStack) (step : Step), step.isCall = true →
        update vs step = .ok vs' →
        vs'.stack.length = vs.stack.length + 1)
    ∧ (∀ (vs vs' : TapeViewStack) (step : Step), step.isRespond = true →
        update vs step = .ok vs' →
        vs'.stack.length + 1 = vs.stack.length) := by
  refine ⟨?_, ?_, ?_⟩
  · intro steps vs' h
    refine ⟨applyAll_length steps initStack vs' h, ?_⟩
    exact applyAll_length_pos steps initStack vs' h (by simp [initStack])
  · intro vs vs' step hc h
    have := (update_length h).1
    cases step <;> simp_all [Step.isCall, Step.isRespond]
  · intro vs vs' step hr h
    have := (update_length h).1
    cases step <;> simp_all [Step.isCall, Step.isRespond]

/-- Closed instance of C1 on the concrete tape `[Call, Respond]`. -/
theorem balance_invariant_witness :
    ((applyAll initStack [Step.call "root" "p" "B" "", Step.respond "root/B" "q" ""]).toOption.getD
          initStack).stack.length
        + countResponds [Step.call "root" "p" "B" "", Step.respond "root/B" "q" ""]
      = 1 + countCalls [Step.call "root" "p" "B" "", Step.respond "root/B" "q" ""] :=
  (balance_invariant.1 [Step.call "root" "p" "B" "", Step.respond "root/B" "q" ""] _ rfl).1

end TapeAgents

namespace TapeAgents

/-- A key is absent from an assoc-list dict iff lookup gives `none`. -/
theorem dictGet?_eq_none_iff (d : List (String × Step)) (k : String) :
    dictGet? d k = none ↔ ∀ p ∈ d, p.1 ≠ k := by
  induction d with
  | nil => simp [dictGet?]
  | cons hd tl ih =>
    obtain ⟨k', v⟩ := hd
    by_cases hk : k' = k <;> simp [dictGet?, hk, ih]

/-- C7 — the `get_output` contract: an integer ref `i ≥ 0` returns the `i`-th
value of `outputs_by_subagent` in insertion order and fails (`IndexError`,
modelled as `none`) exactly when `i` is out of range; a string ref returns
the value mapped under that subagent name and fails (`KeyError`, modelled as
`none`) exactly when the name is absent.  The `none` is the function's
result — the failure is surfaced to the caller, not recovered. -/
theorem get_output_contract :
    ∀ (v : TapeView) (i : ℕ) (name : String),
      v.get_output (.inl (Int.ofNat i)) = (v.outputs_by_subagent.map Prod.snd).get? i
      ∧ ((v.get_output (.inl (Int.ofNat i))).isNone ↔ v.outputs_by_subagent.length ≤ i)
      ∧ v.get_output (.inr name) = dictGet? v.outputs_by_subagent name
      ∧ ((v.get_output (.inr name)).isNone ↔ ∀ p ∈ v.outputs_by_subagent, p.1 ≠ name) := by
  intro v i name
  have h1 : v.get_output (.inl (Int.ofNat i)) = (v.outputs_by_subagent.map Prod.snd).get? i := by
    simp [TapeView.get_output, TapeView.pyIndex]
  refine ⟨h1, ?_, rfl, ?_⟩
  · rw [h1]
    simp [List.get?_eq_none]
  · simp [TapeView.get_output, Option.isNone_iff_eq_none, dictGet?_eq_none_iff]

/-- C8 — Determinism: `compute` (on the no-cache-hit path) is a pure function
of the tape's step sequence; tapes with identical steps but different
identities give structurally equal stacks. -/
theorem compute_deterministic :
    ∀ t1 t2 : Tape, t1.steps = t2.steps →
      TapeViewStack.compute t1 = TapeViewStack.compute t2 := by
  intro t1 t2 h
  unfold TapeViewStack.compute
  rw [h]

/-- Closed instance of C8: same steps, different `context`/`metadata`. -/
theorem compute_deterministic_witness :
    TapeViewStack.compute
        { context := "c1", metadata := "id1",
          steps := [Step.call "root" "p" "B" "", Step.respond "root/B" "q" ""] }
      = TapeViewStack.compute
        { context := "c2", metadata := "id2",
          steps := [Step.call "root" "p" "B" "", Step.respond "root/B" "q" ""] } :=
  compute_deterministic _ _ rfl

end TapeAgents

namespace TapeAgents

open TapeViewStack

/-- C6 — Malformed sequences abort: on any reachable (nonempty) stack,
`update` raises in exactly two structural cases — a `Respond` that would pop
while only one frame remains, and a step whose kind the dispatch does not
recognize; and the first raised error aborts the fold over the remaining
steps with no recovery. -/
theorem malformed_sequences_abort :
    (∀ (vs : TapeViewStack) (step : Step), 1 ≤ vs.stack.length →
        ((∃ e, update vs step = .error e)
          ↔ (step.isRespond = true ∧ vs.stack.length = 1) ∨ step.isUnknown = true))
    ∧ (∀ (vs : TapeViewStack) (step : Step) (rest : List Step) (e : String),
        update vs step = .error e →
        applyAll vs (step :: rest) = .error e) := by
  constructor
  · intro vs step hpos
    obtain ⟨stk, m⟩ := vs
    cases stk with
    | nil => simp at hpos
    | cons top rest =>
      cases step with
      | call b p n c => simp [update, Except.map, Step.isRespond, Step.isUnknown]
      | broadcast b p f c to_ => simp [update, Except.map, Step.isRespond, Step.isUnknown]
      | respond b p c =>
        cases rest with
        | nil =>
          simp [update, pop_view_from_stack, Except.map, Step.isRespond, Step.isUnknown]
        | cons nt rest' =>
          simp [update, pop_view_from_stack, Except.map, Step.isRespond, Step.isUnknown]
      | jump b p n => simp [update, Except.map, Step.isRespond, Step.isUnknown]
      | agentStep b p k pl => simp [update, Except.map, Step.isRespond, Step.isUnknown]
      | observation k pl => simp [update, Except.map, Step.isRespond, Step.isUnknown]
      | unknown pl => simp [update, Except.map, Step.isRespond, Step.isUnknown]
  · intro vs step rest e h
    simp [applyAll, h]

/-- Closed instance of C6: an unrecognized step kind raises, and the fold
over a tape beginning with it aborts. -/
theorem malformed_sequences_abort_witness :
    ∃ e, update initStack (Step.unknown "mystery") = .error e :=
  (malformed_sequences_abort.1 initStack (Step.unknown "mystery")
      (by simp [initStack])).mpr (Or.inr rfl)

end TapeAgents

namespace TapeAgents

open TapeViewStack

/-- Any step found in any of the lists of a dict after a `dictAppend` was
either already in one of the lists or is the appended step. -/
theorem dictAppend_mem (d : List (String × List Step)) (k : String) (v : Step) :
    ∀ kv ∈ dictAppend d k v, ∀ st ∈ kv.2, (∃ kv' ∈ d, st ∈ kv'.2) ∨ st = v := by
  induction d with
  | nil =>
    intro kv hkv st hst
    simp [dictAppend] at hkv
    subst hkv
    simp at hst
    right; exact hst
  | cons hd tl ih =>
    obtain ⟨k', vs⟩ := hd
    intro kv hkv st hst
    by_cases hk : k' = k
    · simp [dictAppend, hk] at hkv
      rcases hkv with h1 | h1
      · subst h1
        simp at hst
        rcases hst with h2 | h2
        · exact Or.inl ⟨(k', vs), by simp, h2⟩
        · exact Or.inr h2
      · exact Or.inl ⟨kv, by simp [h1], hst⟩
    · simp [dictAppend, hk] at hkv
      rcases hkv with h1 | h1
      · subst h1
        exact Or.inl ⟨(k', vs), by simp, hst⟩
      · rcases ih kv h1 st hst with ⟨kv', hkv', hst'⟩ | h2
        · exact Or.inl ⟨kv', by simp [hkv'], hst'⟩
        · exact Or.inr h2

/-- A frame whose `steps` and `steps_by_kind` contain no `Jump` step. -/
def StepsJumpFree (v : TapeView) : Prop :=
  (∀ st ∈ v.steps, st.isJump = false)
    ∧ ∀ kv ∈ v.steps_by_kind, ∀ st ∈ kv.2, st.isJump = false

/-- A stack none of whose frames records a `Jump` step. -/
def JumpFree (vs : TapeViewStack) : Prop :=
  ∀ v ∈ vs.stack, StepsJumpFree v

theorem stepsJumpFree_add_step {v : TapeView} {st : Step}
    (hv : StepsJumpFree v) (hst : st.isJump = false) :
    StepsJumpFree (v.add_step st) := by
  constructor
  · intro x hx
    simp [TapeView.add_step] at hx
    rcases hx with h | h
    · exact hv.1 x h
    · subst h; exact hst
  · intro kv hkv x hx
    rcases dictAppend_mem v.steps_by_kind st.kind st kv hkv x hx with ⟨kv', hkv', hx'⟩ | h
    · exact hv.2 kv' hkv' x hx'
    · subst h; exact hst

theorem jumpFree_promptLogic {vs : TapeViewStack} (h : JumpFree vs) (step : Step) :
    JumpFree (promptLogic step vs) := by
  obtain ⟨stk, m⟩ := vs
  cases stk with
  | nil => exact h
  | cons top rest =>
    intro v hv
    simp [promptLogic] at hv
    rcases hv with h1 | h1
    · subst h1
      obtain ⟨nn, lp, he⟩ := promptTop_eta step top
      rw [he]
      exact h top (by simp)
    · exact h v (by simp [h1])

/-- Unfolding equation for `update` on a `Respond` step over a stack of at
least two frames (the body of `pop_view_from_stack`, then the prompt-id
bookkeeping). -/
theorem update_respond_eq (top nt : TapeView) (rest : List TapeView)
    (m : List (String × List Step)) (b p c : String) :
    update ⟨top :: nt :: rest, m⟩ (.respond b p c)
      = .ok (promptLogic (.respond b p c)
          { stack :=
              (match List.find? (eligibleOutput nt.agent_full_name) top.steps.reverse with
               | some out =>
                  let nt1 := ({ nt with next_node := nt.next_node + 1 } : TapeView).add_step out
                  { nt1 with
                    outputs_by_subagent := dictSet nt1.outputs_by_subagent top.agent_name out }
               | none => { nt with next_node := nt.next_node + 1 }).add_step (.respond b p c)
                :: rest
            messages_by_agent :=
              dictAppend (dictAppend m b (.respond b p c)) (rsplitHead b)
                (.respond b p c) }) := rfl

/-- No transition ever records a `Jump` step on any frame. -/
theorem update_jumpFree {vs vs' : TapeViewStack} {step : Step}
    (h : update vs step = .ok vs') (hvf : JumpFree vs) : JumpFree vs' := by
  obtain ⟨stk, m⟩ := vs
  cases stk with
  | nil => simp [update] at h
  | cons top rest =>
    have htop : StepsJumpFree top := hvf top (by simp)
    have hrest : ∀ v ∈ rest, StepsJumpFree v := fun v hv => hvf v (by simp [hv])
    cases step with
    | call b p n c =>
      simp only [update, Except.map, Except.ok.injEq] at h
      subst h
      apply jumpFree_promptLogic
      intro v hv
      simp [put_new_view_on_stack] at hv
      rcases hv with h1 | h1 | h1
      · subst h1; exact ⟨by simp, by simp⟩
      · subst h1; exact stepsJumpFree_add_step htop rfl
      · exact hrest v h1
    | broadcast b p f c to_ =>
      simp only [update, Except.map, Except.ok.injEq] at h
      subst h
      apply jumpFree_promptLogic
      intro v hv
      simp [TapeViewStack.broadcast] at hv
      rcases hv with h1 | h1
      · subst h1; exact stepsJumpFree_add_step htop rfl
      · exact hrest v h1
    | respond b p c =>
      cases rest with
      | nil => simp [update, pop_view_from_stack, Except.map] at h
      | cons nt rest' =>
        have hnt : StepsJumpFree nt := hvf nt (by simp)
        have hnt' : StepsJumpFree ({ nt with next_node := nt.next_node + 1 } : TapeView) := hnt
        rw [update_respond_eq, Except.ok.injEq] at h
        subst h
        apply jumpFree_promptLogic
        intro v hv
        simp at hv
        rcases hv with h1 | h1
        · subst h1
          rcases hf : List.find? (eligibleOutput nt.agent_full_name) top.steps.reverse
            with _ | out
          · simp only [hf]
            exact stepsJumpFree_add_step hnt' rfl
          · simp only [hf]
            have hout : out.isJump = false :=
              htop.1 out (List.mem_reverse.mp (List.mem_of_find?_eq_some hf))
            refine stepsJumpFree_add_step ?_ rfl
            have hmid : StepsJumpFree
                (({ nt with next_node := nt.next_node + 1 } : TapeView).add_step out) :=
              stepsJumpFree_add_step hnt' hout
            exact hmid
        · exact hvf v (by simp [h1])
    | jump b p n =>
      simp only [update, Except.map, Except.ok.injEq] at h
      subst h
      apply jumpFree_promptLogic
      intro v hv
      simp at hv
      rcases hv with h1 | h1
      · subst h1; exact htop
      · exact hrest v h1
    | agentStep b p k pl =>
      simp only [update, Except.map, Except.ok.injEq] at h
      subst h
      apply jumpFree_promptLogic
      intro v hv
      simp at hv
      rcases hv with h1 | h1
      · subst h1; exact stepsJumpFree_add_step htop rfl
      · exact hrest v h1
    | observation k pl =>
      simp only [update, Except.map, Except.ok.injEq] at h
      subst h
      apply jumpFree_promptLogic
      intro v hv
      simp at hv
      rcases hv with h1 | h1
      · subst h1; exact stepsJumpFree_add_step htop rfl
      · exact hrest v h1
    | unknown pl => simp [update, Except.map] at h

theorem applyAll_jumpFree :
    ∀ (steps : List Step) (vs vs' : TapeViewStack),
      applyAll vs steps = .ok vs' → JumpFree vs → JumpFree vs'
  | [], vs, vs', h, hvf => by
      simp only [applyAll, Except.ok.injEq] at h
      subst h; exact hvf
  | s :: rest, vs, vs', h, hvf => by
      simp only [applyAll] at h
      cases hu : update vs s with
      | error e => rw [hu] at h; exact absurd h (by simp)
      | ok w =>
        rw [hu] at h
        exact applyAll_jumpFree rest w vs' h (update_jumpFree hu hvf)

theorem jumpFree_initStack : JumpFree initStack := by
  intro v hv
  simp [initStack] at hv
  subst hv
  exact ⟨by simp, by simp⟩

theorem promptTop_next_node_of_jump (b p : String) (n : Nat) (t : TapeView) :
    (promptTop (.jump b p n) t).next_node = t.next_node := by
  unfold promptTop
  simp only [Step.isJump, if_true]
  split <;> rfl

end TapeAgents

namespace TapeAgents

open TapeViewStack

/-- C9 — Jump leaves the log untouched: a successful `update` on a `Jump`
step sets the top frame's `next_node` to the step's `next_node` and preserves
the stack depth, `messages_by_agent`, and every frame's `steps` and
`steps_by_kind`; consequently a fold from the root-seeded stack never leaves
a `Jump` step in any frame's `steps` or `steps_by_kind`. -/
theorem jump_untouched :
    (∀ (vs vs' : TapeViewStack) (b p : String) (n : Nat),
        update vs (.jump b p n) = .ok vs' →
        vs'.stack.length = vs.stack.length
          ∧ vs'.messages_by_agent = vs.messages_by_agent
          ∧ vs'.stack.map TapeView.steps = vs.stack.map TapeView.steps
          ∧ vs'.stack.map TapeView.steps_by_kind = vs.stack.map TapeView.steps_by_kind
          ∧ vs'.top.next_node = n)
    ∧ (∀ (steps : List Step) (vs' : TapeViewStack),
        applyAll initStack steps = .ok vs' → JumpFree vs') := by
  constructor
  · intro vs vs' b p n h
    obtain ⟨stk, m⟩ := vs
    cases stk with
    | nil => simp [update] at h
    | cons top rest =>
      simp only [update, Except.map, Except.ok.injEq] at h
      subst h
      refine ⟨?_, ?_, ?_, ?_, ?_⟩
      · simp [promptLogic_length]
      · simp [promptLogic_messages]
      · rw [promptLogic_map_steps]; simp
      · rw [promptLogic_map_steps_by_kind]; simp
      · simp [promptLogic, TapeViewStack.top, promptTop_next_node_of_jump]
  · intro steps vs' h
    exact applyAll_jumpFree steps initStack vs' h jumpFree_initStack

/-- Closed instance of C9: a `Jump` to node 5 on the root-seeded stack. -/
theorem jump_untouched_witness :
    ((update initStack (Step.jump "root" "p" 5)).toOption.getD initStack).stack.length
        = initStack.stack.length
      ∧ ((update initStack (Step.jump "root" "p" 5)).toOption.getD
            initStack).top.next_node = 5 :=
  ⟨(jump_untouched.1 initStack _ "root" "p" 5 rfl).1,
    (jump_untouched.1 initStack _ "root" "p" 5 rfl).2.2.2.2⟩

end TapeAgents

namespace TapeAgents

open TapeViewStack

/-- Finding via `find?` on a reversed list is the LAST element of the original
list satisfying the predicate: everything after it fails the predicate. -/
theorem find?_reverse_eq_some {p : Step → Bool} {l : List Step} {o : Step}
    (h : l.reverse.find? p = some o) :
    ∃ l1 l2, l = l1 ++ o :: l2 ∧ p o = true ∧ ∀ x ∈ l2, p x = false := by
  induction l using List.reverseRecOn with
  | nil => simp at h
  | append_singleton l a ih =>
    rw [List.reverse_append] at h
    simp only [List.reverse_cons, List.reverse_nil, List.nil_append,
      List.singleton_append] at h
    by_cases pa : p a
    · rw [List.find?_cons_of_pos _ pa, Option.some.injEq] at h
      subst h
      exact ⟨l, [], rfl, pa, by simp⟩
    · rw [List.find?_cons_of_neg _ pa] at h
      obtain ⟨l1, l2, hdec, hpo, hrest⟩ := ih h
      refine ⟨l1, l2 ++ [a], by rw [hdec]; simp, hpo, ?_⟩
      intro x hx
      rcases List.mem_append.mp hx with hx | hx
      · exact hrest x hx
      · simp at hx
        subst hx
        exact Bool.of_not_eq_true pa

/-- Setting `d[k] = v` makes `d[k]` read back `v`. -/
theorem dictGet?_dictSet_self (d : List (String × Step)) (k : String) (v : Step) :
    dictGet? (dictSet d k v) k = some v := by
  induction d with
  | nil => simp [dictSet, dictGet?]
  | cons hd tl ih =>
    obtain ⟨k', v'⟩ := hd
    by_cases hk : k' = k <;> simp [dictSet, dictGet?, hk, ih]

/-- Appending under key `k` grows exactly that key's list. -/
theorem dictGetList_dictAppend_self (d : List (String × List Step)) (k : String)
    (w : Step) :
    dictGetList (dictAppend d k w) k = dictGetList d k ++ [w] := by
  induction d with
  | nil => simp [dictAppend, dictGetList]
  | cons hd tl ih =>
    obtain ⟨k', vs⟩ := hd
    by_cases h1 : k' = k
    · subst h1
      simp [dictAppend, dictGetList]
    · simp [dictAppend, dictGetList, h1, ih]

/-- Appending under a different key leaves key `k`'s list unchanged. -/
theorem dictGetList_dictAppend_ne (d : List (String × List Step)) (k k2 : String)
    (w : Step) (hne : k ≠ k2) :
    dictGetList (dictAppend d k2 w) k = dictGetList d k := by
  induction d with
  | nil => simp [dictAppend, dictGetList, Ne.symm hne]
  | cons hd tl ih =>
    obtain ⟨k', vs⟩ := hd
    by_cases h2 : k' = k2
    · subst h2
      simp [dictAppend, dictGetList, Ne.symm hne]
    · by_cases h1 : k' = k
      · subst h1
        simp [dictAppend, dictGetList, h2]
      · simp [dictAppend, dictGetList, h1, h2, ih]

end TapeAgents

namespace TapeAgents

open TapeViewStack

theorem add_step_outputs (v : TapeView) (st : Step) :
    (v.add_step st).outputs_by_subagent = v.outputs_by_subagent := rfl

theorem add_step_steps (v : TapeView) (st : Step) :
    (v.add_step st).steps = v.steps ++ [st] := rfl

/-- C2 — Output selection on Respond: when `update` pops the top frame, the
step recorded as the new top's `outputs_by_subagent[popped.agent_name]` and
appended to the new top's `steps` is the LAST step of the popped frame that
is neither `Call` nor `Respond` nor attributed to the now-active caller:
every later step of the popped frame fails that eligibility test. -/
theorem output_selection :
    ∀ (top nt : TapeView) (rest : List TapeView) (m : List (String × List Step))
      (b p c : String) (vs' : TapeViewStack) (out : Step),
      update ⟨top :: nt :: rest, m⟩ (.respond b p c) = .ok vs' →
      List.find? (eligibleOutput nt.agent_full_name) top.steps.reverse = some out →
      (∃ l1 l2, top.steps = l1 ++ out :: l2
          ∧ eligibleOutput nt.agent_full_name out = true
          ∧ ∀ x ∈ l2, eligibleOutput nt.agent_full_name x = false)
        ∧ dictGet? vs'.top.outputs_by_subagent top.agent_name = some out
        ∧ vs'.top.steps = nt.steps ++ [out, .respond b p c] := by
  intro top nt rest m b p c vs' out h hf
  rw [update_respond_eq, Except.ok.injEq] at h
  subst h
  refine ⟨find?_reverse_eq_some hf, ?_, ?_⟩
  · simp only [promptLogic, TapeViewStack.top, List.headD, hf, promptTop_outputs,
      add_step_outputs]
    exact dictGet?_dictSet_self _ _ _
  · simp only [promptLogic, TapeViewStack.top, List.headD, hf, promptTop_steps,
      add_step_steps]
    simp

/-- The caller frame of the concrete C2 scenario. -/
def c2Caller : TapeView := { agent_name := "root", agent_full_name := "root" }

/-- The caller's echoed input inside the popped frame. -/
def c2InputA : Step := .agentStep "root" "p0" "input" "A"

/-- The subagent's own result step. -/
def c2ResultX : Step := .agentStep "root/B" "p1" "thought" "X"

/-- The popped frame of the concrete C2 scenario:
`[InputA (by the caller), ResultX, Call, Respond]`. -/
def c2Popped : TapeView :=
  { agent_name := "B", agent_full_name := "root/B",
    steps := [c2InputA, c2ResultX, .call "root/B" "p2" "C" "",
      .respond "root/B/C" "p3" ""] }

/-- Closed instance of C2: the selected output is `ResultX`, never the
caller's echoed input. -/
theorem output_selection_witness :
    dictGet? ((update ⟨[c2Popped, c2Caller], []⟩
          (.respond "root/B" "p4" "")).toOption.getD initStack).top.outputs_by_subagent
        "B" = some c2ResultX :=
  (output_selection c2Popped c2Caller [] [] "root/B" "p4" "" _ c2ResultX rfl rfl).2.1

/-- C10 — Pop with no eligible output: when a `Respond` pops a frame none of
whose steps passes the eligibility test, `outputs_by_subagent` is unchanged
and no output step is appended; the `Respond` itself is still appended to the
new top and routed into `messages_by_agent` under the responder's full path
and the caller's path. -/
theorem pop_without_output :
    ∀ (top nt : TapeView) (rest : List TapeView) (m : List (String × List Step))
      (b p c : String) (vs' : TapeViewStack),
      update ⟨top :: nt :: rest, m⟩ (.respond b p c) = .ok vs' →
      (∀ st ∈ top.steps, eligibleOutput nt.agent_full_name st = false) →
      vs'.top.outputs_by_subagent = nt.outputs_by_subagent
        ∧ vs'.top.steps = nt.steps ++ [.respond b p c]
        ∧ (.respond b p c) ∈ dictGetList vs'.messages_by_agent b
        ∧ (.respond b p c) ∈ dictGetList vs'.messages_by_agent (rsplitHead b) := by
  intro top nt rest m b p c vs' h hel
  have hf : List.find? (eligibleOutput nt.agent_full_name) top.steps.reverse = none := by
    rw [List.find?_eq_none]
    intro x hx
    simp [hel x (List.mem_reverse.mp hx)]
  rw [update_respond_eq, Except.ok.injEq] at h
  subst h
  refine ⟨?_, ?_, ?_, ?_⟩
  · simp only [promptLogic, TapeViewStack.top, List.headD, hf, promptTop_outputs,
      add_step_outputs]
  · simp only [promptLogic, TapeViewStack.top, List.headD, hf, promptTop_steps,
      add_step_steps]
  · rw [promptLogic_messages]
    by_cases hbr : b = rsplitHead b
    · rw [← hbr, dictGetList_dictAppend_self, dictGetList_dictAppend_self]
      simp
    · rw [dictGetList_dictAppend_ne _ _ _ _ hbr, dictGetList_dictAppend_self]
      simp
  · rw [promptLogic_messages]
    rw [dictGetList_dictAppend_self]
    simp

/-- The caller frame of the concrete C10 scenario. -/
def c10Caller : TapeView := { agent_name := "root", agent_full_name := "root" }

/-- The popped frame of the concrete C10 scenario: its only step is the
caller's input, so nothing is eligible as an output. -/
def c10Popped : TapeView :=
  { agent_name := "B", agent_full_name := "root/B",
    steps := [.agentStep "root" "p0" "input" "A"] }

/-- Closed instance of C10. -/
theorem pop_without_output_witness :
    ((update ⟨[c10Popped, c10Caller], []⟩
          (.respond "root/B" "p4" "")).toOption.getD initStack).top.outputs_by_subagent
        = c10Caller.outputs_by_subagent
      ∧ (Step.respond "root/B" "p4" "") ∈
          dictGetList ((update ⟨[c10Popped, c10Caller], []⟩
              (.respond "root/B" "p4" "")).toOption.getD initStack).messages_by_agent
            "root/B" :=
  ⟨(pop_without_output c10Popped c10Caller [] [] "root/B" "p4" "" _ rfl
      (by decide)).1,
    (pop_without_output c10Popped c10Caller [] [] "root/B" "p4" "" _ rfl
      (by decide)).2.2.1⟩

end TapeAgents

namespace TapeAgents

open TapeViewStack

theorem add_step_agent_name (v : TapeView) (st : Step) :
    (v.add_step st).agent_name = v.agent_name := rfl

theorem add_step_agent_full_name (v : TapeView) (st : Step) :
    (v.add_step st).agent_full_name = v.agent_full_name := rfl

/-- Two routes differing in the receiver name are different keys. -/
theorem route_X_ne_route_Y (b : String) : (b ++ "/" ++ "X") ≠ (b ++ "/" ++ "Y") := by
  intro he
  have hd : (b ++ "/").data ++ ("X" : String).data
      = (b ++ "/").data ++ ("Y" : String).data := by
    have h2 := congrArg String.data he
    simp only [String.data_append] at h2
    exact h2
  have h3 : ("X" : String).data = ("Y" : String).data := List.append_cancel_left hd
  exact absurd (String.ext h3) (by decide)

/-- C5 — Broadcast is non-blocking: `update` on a `Broadcast` with
`to = ["X", "Y"]` keeps the stack depth and the broadcaster's top frame
(recording the step on it), and appends the step to `messages_by_agent`
under the routes `<broadcaster path>/X` and `<broadcaster path>/Y`; no frame
is pushed or popped. -/
theorem broadcast_non_blocking :
    ∀ (vs vs' : TapeViewStack) (b p f c : String),
      update vs (.broadcast b p f c ["X", "Y"]) = .ok vs' →
      vs'.stack.length = vs.stack.length
        ∧ vs'.top.agent_name = vs.top.agent_name
        ∧ vs'.top.agent_full_name = vs.top.agent_full_name
        ∧ vs'.top.steps = vs.top.steps ++ [.broadcast b p f c ["X", "Y"]]
        ∧ dictGetList vs'.messages_by_agent (b ++ "/" ++ "X")
            = dictGetList vs.messages_by_agent (b ++ "/" ++ "X")
                ++ [.broadcast b p f c ["X", "Y"]]
        ∧ dictGetList vs'.messages_by_agent (b ++ "/" ++ "Y")
            = dictGetList vs.messages_by_agent (b ++ "/" ++ "Y")
                ++ [.broadcast b p f c ["X", "Y"]] := by
  intro vs vs' b p f c h
  obtain ⟨stk, m⟩ := vs
  cases stk with
  | nil => simp [update] at h
  | cons top rest =>
    simp only [update, Except.map, Except.ok.injEq] at h
    subst h
    refine ⟨?_, ?_, ?_, ?_, ?_, ?_⟩
    · simp [promptLogic_length, TapeViewStack.broadcast]
    · simp only [promptLogic, TapeViewStack.broadcast, TapeViewStack.top, List.headD]
      simp [(promptTop_names _ _).1, add_step_agent_name]
    · simp only [promptLogic, TapeViewStack.broadcast, TapeViewStack.top, List.headD]
      simp [(promptTop_names _ _).2, add_step_agent_full_name]
    · simp only [promptLogic, TapeViewStack.broadcast, TapeViewStack.top, List.headD]
      simp [promptTop_steps, add_step_steps]
    · rw [promptLogic_messages]
      simp only [TapeViewStack.broadcast, List.foldl]
      rw [dictGetList_dictAppend_ne _ _ _ _ (route_X_ne_route_Y b),
        dictGetList_dictAppend_self]
    · rw [promptLogic_messages]
      simp only [TapeViewStack.broadcast, List.foldl]
      rw [dictGetList_dictAppend_self,
        dictGetList_dictAppend_ne _ _ _ _ (Ne.symm (route_X_ne_route_Y b))]

/-- Closed instance of C5: a broadcast from the root frame. -/
theorem broadcast_non_blocking_witness :
    ((update initStack (Step.broadcast "root" "p" "root" "hi" ["X", "Y"])).toOption.getD
          initStack).stack.length = initStack.stack.length
      ∧ dictGetList ((update initStack
            (Step.broadcast "root" "p" "root" "hi" ["X", "Y"])).toOption.getD
              initStack).messages_by_agent ("root" ++ "/" ++ "X")
          = dictGetList initStack.messages_by_agent ("root" ++ "/" ++ "X")
              ++ [Step.broadcast "root" "p" "root" "hi" ["X", "Y"]] :=
  ⟨(broadcast_non_blocking initStack _ "root" "p" "root" "hi" rfl).1,
    (broadcast_non_blocking initStack _ "root" "p" "root" "hi" rfl).2.2.2.2.1⟩

end TapeAgents

namespace TapeAgents

open TapeViewStack

/-- The three-step tape of the node-counting scenario: prompt ids
`"p1", "p1", "p2"`, all attributed to the root frame's active agent. -/
def c3Steps : List Step :=
  [.agentStep "root" "p1" "thought" "a",
   .agentStep "root" "p1" "thought" "b",
   .agentStep "root" "p2" "thought" "c"]

/-- The top frame's `next_node` after folding the first `k` steps of
`c3Steps` into the fresh root stack. -/
def c3NextNodeAfter (k : Nat) : Nat :=
  ((applyAll initStack (c3Steps.take k)).toOption.getD initStack).top.next_node

/-- C3 as stated is FALSE: the claim predicts a single increase of
`next_node`, located between the 2nd and 3rd step (so `next_node` would still
be 0 after the 1st and 2nd steps).  On the code, the very first step already
increments it, because its `prompt_id` `"p1"` differs from the fresh frame's
initial `last_prompt_id` `""`. -/
theorem node_counting_counterexample :
    ¬ (c3NextNodeAfter 1 = 0 ∧ c3NextNodeAfter 2 = 0 ∧ 0 < c3NextNodeAfter 3) := by
  decide

/-- C3 (amended) — Node counting: starting from a fresh frame
(`next_node = 0`, `last_prompt_id = ""`), the AgentStep sequence with prompt
ids `"p1", "p1", "p2"` attributed to the active agent makes `next_node`
increase exactly twice: from 0 to 1 at the 1st step (whose `prompt_id`
differs from the initial `""`), unchanged at the 2nd, and from 1 to 2
between the 2nd and 3rd step. -/
theorem node_counting :
    c3NextNodeAfter 0 = 0 ∧ c3NextNodeAfter 1 = 1
      ∧ c3NextNodeAfter 2 = 1 ∧ c3NextNodeAfter 3 = 2 := by
  decide

/-- The tape of the end-to-end scenario C4. -/
def c4Steps : List Step :=
  [.call "root" "" "B" "",
   .agentStep "root/B" "p1" "thought" "x",
   .respond "root/B" "" ""]

/-- C4 — End-to-end scenario: `compute` on the tape
`[Call(agent_name="B", by="root"), AgentStep(by="root/B", prompt_id="p1"),
Respond(by="root/B")]` yields a stack of depth 1 whose root frame maps
`outputs_by_subagent["B"]` to that AgentStep, and whose
`messages_by_agent["root"]` and `messages_by_agent["root/B"]` each contain
both the Call and the Respond. -/
theorem end_to_end_scenario :
    ∃ vs, TapeViewStack.compute { steps := c4Steps } = .ok vs
      ∧ vs.stack.length = 1
      ∧ dictGet? vs.top.outputs_by_subagent "B"
          = some (.agentStep "root/B" "p1" "thought" "x")
      ∧ (Step.call "root" "" "B" "") ∈ dictGetList vs.messages_by_agent "root"
      ∧ (Step.respond "root/B" "" "") ∈ dictGetList vs.messages_by_agent "root"
      ∧ (Step.call "root" "" "B" "") ∈ dictGetList vs.messages_by_agent "root/B"
      ∧ (Step.respond "root/B" "" "") ∈ dictGetList vs.messages_by_agent "root/B" := by
  refine ⟨(TapeViewStack.compute { steps := c4Steps }).toOption.getD initStack,
    rfl, ?_, ?_, ?_, ?_, ?_, ?_⟩ <;> decide

end TapeAgents
